import Mathlib

/-!
# Verification of the TSP Arena computational core

Shallow embedding of the route algorithms (`src/algorithms/tsp-solver.js`),
the step-trace generators (`src/modules/greedyStepGenerator.js`,
`src/modules/bruteForceStepGenerator.js`), the live brute-force runner and
the step playback controller (`src/modules/ui-manager.js`).

Modelling conventions:
* JavaScript numbers are modelled by `ℝ`; `Math.sqrt` by `Real.sqrt`.
  Definitions that branch on real comparisons are `noncomputable` (the
  branch itself is classical), everything over `Nat`/lists is computable.
* `Infinity` initial values are modelled by `Option`-typed accumulators:
  `none` plays the role of `Infinity` (every finite value compares below it),
  exactly matching the first-iteration behaviour of the source loops.
* Array indexing `cities[route[i]]` is modelled by `cityAt`, which returns a
  default city out of range (the claims never exercise out-of-range input).
* Textual step fields (`metadata`, `explanation`) carry no algorithmic
  content and are omitted from the `Step` record; the fields the claims
  speak about (`type`, `fromCity`, `toCity`, `path`, `distance`) are kept.
-/

/-- A city: coordinates in the plane.  The source's `id` equals the city's
position in the canonical city list, so routes are lists of indices and the
`id` field is not duplicated here. -/
structure City where
  x : ℝ
  y : ℝ

/-- `calculateDistance` from `tsp-solver.js`:
Euclidean distance `sqrt(dx*dx + dy*dy)`. -/
noncomputable def calculateDistance (cityA cityB : City) : ℝ :=
  Real.sqrt ((cityB.x - cityA.x) * (cityB.x - cityA.x) +
    (cityB.y - cityA.y) * (cityB.y - cityA.y))

/-- Float comparison epsilon from `tsp-solver.js`: `EPSILON = 1e-9`. -/
noncomputable def EPSILON : ℝ := 1e-9

/-- `cities[i]` lookup (default city for out-of-range indices). -/
def cityAt (cities : List City) (i : Nat) : City :=
  cities.getD i ⟨0, 0⟩

/-- The consecutive-edge sum of `calculateTotalDistance`'s `for` loop:
`for i in 0..route.length-2: total += dist(cities[route[i]], cities[route[i+1]])`. -/
noncomputable def consecSum (cities : List City) : List Nat → ℝ
  | a :: b :: rest =>
      calculateDistance (cityAt cities a) (cityAt cities b) + consecSum cities (b :: rest)
  | _ => 0

/-- `calculateTotalDistance` from `tsp-solver.js`: returns 0 for routes of
length < 2, sums consecutive edges, and adds the closing edge exactly when
the route is open (`route[0] !== route[route.length-1]`). -/
noncomputable def calculateTotalDistance (route : List Nat) (cities : List City) : ℝ :=
  if route.length < 2 then 0
  else
    consecSum cities route +
      (if route.headD 0 = route.getLastD 0 then 0
       else calculateDistance (cityAt cities (route.getLastD 0)) (cityAt cities (route.headD 0)))

lemma calculateDistance_self (c : City) : calculateDistance c c = 0 := by
  simp [calculateDistance]

lemma getLastD_mem : ∀ (l : List Nat), l ≠ [] → ∀ d : Nat, l.getLastD d ∈ l
  | [], h, _ => absurd rfl h
  | [a], _, d => by simp
  | a :: b :: t, _, d => by
      have ih := getLastD_mem (b :: t) (by simp) a
      rw [List.getLastD_cons]
      exact List.mem_cons_of_mem a ih

lemma getLastD_concat : ∀ (l : List Nat) (x d : Nat), (l ++ [x]).getLastD d = x
  | [], x, d => rfl
  | a :: l, x, d => by
      simpa only [List.cons_append, List.getLastD_cons] using getLastD_concat l x a

lemma consecSum_append_singleton (cities : List City) :
    ∀ (R : List Nat) (x : Nat), R ≠ [] →
      consecSum cities (R ++ [x]) =
        consecSum cities R + calculateDistance (cityAt cities (R.getLastD 0)) (cityAt cities x)
  | [], _, h => absurd rfl h
  | [a], x, _ => by simp [consecSum]
  | a :: b :: t, x, _ => by
      have ih := consecSum_append_singleton cities (b :: t) x (by simp)
      simp only [List.cons_append, List.append_eq, consecSum, List.getLastD_cons] at ih ⊢
      rw [ih]
      ring

lemma head_ne_getLast_of_nodup {a : Nat} {t : List Nat} (ht : t ≠ [])
    (hnd : (a :: t).Nodup) : (a :: t).headD 0 ≠ (a :: t).getLastD 0 := by
  have hmem : (a :: t).getLastD 0 ∈ t := by
    rw [List.getLastD_cons]
    exact getLastD_mem t ht a
  have hnotmem : a ∉ t := (List.nodup_cons.mp hnd).1
  simp only [List.headD_cons]
  intro h
  exact hnotmem (h ▸ hmem)

/-- The open/closed invariance of `calculateTotalDistance`, in helper form:
for a nonempty duplicate-free route, closing it (appending the first element)
does not change the computed total. -/
lemma calculateTotalDistance_close (cities : List City) (R : List Nat)
    (hnd : R.Nodup) (hne : R ≠ []) :
    calculateTotalDistance R cities = calculateTotalDistance (R ++ [R.headD 0]) cities := by
  match R, hne with
  | [a], _ =>
      simp [calculateTotalDistance, consecSum, calculateDistance_self]
  | a :: b :: t, _ =>
      have hne2 : (a :: b :: t) ≠ [] := by simp
      have hopen : (a :: b :: t).headD 0 ≠ (a :: b :: t).getLastD 0 :=
        head_ne_getLast_of_nodup (by simp) hnd
      have happ := consecSum_append_singleton cities (a :: b :: t) ((a :: b :: t).headD 0) hne2
      have hlen1 : ¬ (a :: b :: t).length < 2 := by simp
      have hlen2 : ¬ ((a :: b :: t) ++ [(a :: b :: t).headD 0]).length < 2 := by simp
      have hhead : ((a :: b :: t) ++ [(a :: b :: t).headD 0]).headD 0 = a := by simp
      have hlast : ((a :: b :: t) ++ [(a :: b :: t).headD 0]).getLastD 0 = a :=
        getLastD_concat _ _ _
      rw [calculateTotalDistance, calculateTotalDistance, if_neg hlen1, if_neg hlen2,
        if_neg hopen, hhead, hlast, if_pos rfl, happ]
      simp

/-- **C5.** For every duplicate-free nonempty open route `R`,
`calculateTotalDistance R = calculateTotalDistance (R ++ [R[0]])`; and for
every route shorter than 2 entries, `calculateTotalDistance` returns 0.
(The source's `null` route is subsumed by the short-route case: the guard
`!route || route.length < 2` returns 0 for both.) -/
theorem calculateTotalDistance_closure_invariance (cities : List City) (R : List Nat) :
    (R.Nodup → R ≠ [] →
      calculateTotalDistance R cities = calculateTotalDistance (R ++ [R.headD 0]) cities) ∧
    (R.length < 2 → calculateTotalDistance R cities = 0) := by
  constructor
  · intro hnd hne
    exact calculateTotalDistance_close cities R hnd hne
  · intro hlen
    simp [calculateTotalDistance, hlen]

/-- Witness for C5 at concrete inputs: the open route `[0, 1]` and its
closure `[0, 1, 0]` get the same total, and the length-1 route `[7]` gets 0. -/
theorem calculateTotalDistance_closure_invariance_witness :
    calculateTotalDistance [0, 1] [] = calculateTotalDistance ([0, 1] ++ [List.headD [0, 1] 0]) []
      ∧ calculateTotalDistance [7] [] = 0 :=
  ⟨(calculateTotalDistance_closure_invariance [] [0, 1]).1 (by decide) (by decide),
   (calculateTotalDistance_closure_invariance [] [7]).2 (by decide)⟩

/-- One round of the permutation generator's `for (let i ...)` loop: the list
of pairs `(array[i], array with index i removed)` in ascending `i` order,
mirroring `head = array[i]; tail = array.slice(0,i).concat(array.slice(i+1))`. -/
def selections : List Nat → List (Nat × List Nat)
  | [] => []
  | a :: rest => (a, rest) :: (selections rest).map (fun p => (p.1, a :: p.2))

lemma selections_length : ∀ l : List Nat, (selections l).length = l.length
  | [] => rfl
  | a :: rest => by simp [selections, selections_length rest]

lemma selections_snd_length : ∀ {l : List Nat} {p : Nat × List Nat},
    p ∈ selections l → p.2.length + 1 = l.length
  | [], p, h => by simp [selections] at h
  | a :: rest, p, h => by
      simp only [selections, List.mem_cons, List.mem_map] at h
      rcases h with rfl | ⟨q, hq, rfl⟩
      · simp
      · have := selections_snd_length hq
        simp only [List.length_cons]
        omega

lemma selections_mem : ∀ {l : List Nat} {a : Nat}, a ∈ l → (a, l.erase a) ∈ selections l
  | [], a, h => by simp at h
  | b :: rest, a, h => by
      by_cases hab : a = b
      · subst hab
        simp [selections, List.erase_cons_head]
      · have ha : a ∈ rest := by
          rcases List.mem_cons.mp h with h' | h'
          · exact absurd h' hab
          · exact h'
        have ih := selections_mem ha
        have herase : (b :: rest).erase a = b :: rest.erase a :=
          List.erase_cons_tail (by simp [Ne.symm hab])
        rw [herase]
        simp only [selections, List.mem_cons, List.mem_map]
        exact Or.inr ⟨(a, rest.erase a), ih, rfl⟩

/-- Recursion core of the source's permutation generator, with an explicit
fuel argument (one unit per recursion level; `fuel = array.length` always
suffices, and the `fuel = 0` fallback is unreachable starting from there).
Mirrors `tsp-solver.js` (the same generator is duplicated in
`bruteForceStepGenerator.js` and `ui-manager.js`): arrays with at most one
element yield themselves; otherwise for each index `i` (ascending order)
every permutation of the remainder is emitted with `array[i]` prefixed. -/
def gpAux : Nat → List Nat → List (List Nat)
  | 0, l => [l]
  | fuel + 1, l =>
      if l.length ≤ 1 then [l]
      else (selections l).flatMap (fun p => (gpAux fuel p.2).map (p.1 :: ·))

/-- `generatePermutations` from the source: the lazy generator materialised
as the list of all emitted permutations, in emission order. -/
def generatePermutations (l : List Nat) : List (List Nat) :=
  gpAux l.length l

lemma gpAux_complete :
    ∀ (fuel : Nat) (l l' : List Nat), l.length ≤ fuel → l'.Perm l → l' ∈ gpAux fuel l := by
  intro fuel
  induction fuel with
  | zero =>
      intro l l' hf h
      have hl : l = [] := List.length_eq_zero.mp (by omega)
      subst hl
      have : l' = [] := h.eq_nil
      simp [gpAux, this]
  | succ fuel ih =>
      intro l l' hf h
      rw [gpAux]
      by_cases hl : l.length ≤ 1
      · rw [if_pos hl]
        have hlen : l'.length = l.length := h.length_eq
        cases l with
        | nil =>
            have : l' = [] := h.eq_nil
            simp [this]
        | cons a t =>
            have ht : t = [] := by
              cases t with
              | nil => rfl
              | cons b t' => simp at hl
            subst ht
            have : l' = [a] := List.perm_singleton.mp h
            simp [this]
      · rw [if_neg hl]
        cases l' with
        | nil =>
            exfalso
            have hlen : (0 : Nat) = l.length := h.length_eq
            omega
        | cons a t' =>
            have ha : a ∈ l := h.subset (List.mem_cons_self a t')
            have ht' : t'.Perm (l.erase a) := (List.cons_perm_iff_perm_erase.mp h).2
            have hsel := selections_mem ha
            have hflen : (l.erase a).length ≤ fuel := by
              have := List.length_erase_of_mem ha
              omega
            exact List.mem_flatMap.mpr
              ⟨(a, l.erase a), hsel,
                List.mem_map.mpr ⟨t', ih (l.erase a) t' hflen ht', rfl⟩⟩

/-- Completeness of the source's permutation enumerator: every reordering of
the input occurs in the generated list. -/
theorem mem_generatePermutations_of_perm (l l' : List Nat) (h : l'.Perm l) :
    l' ∈ generatePermutations l :=
  gpAux_complete l.length l l' (le_refl _) h

lemma gpAux_length :
    ∀ (fuel : Nat) (l : List Nat), l.length ≤ fuel →
      (gpAux fuel l).length = Nat.factorial l.length := by
  intro fuel
  induction fuel with
  | zero =>
      intro l hf
      have hl : l = [] := List.length_eq_zero.mp (by omega)
      subst hl
      simp [gpAux, Nat.factorial]
  | succ fuel ih =>
      intro l hf
      rw [gpAux]
      by_cases hl : l.length ≤ 1
      · rw [if_pos hl]
        interval_cases h : l.length <;> simp [Nat.factorial]
      · rw [if_neg hl]
        simp only [List.length_flatMap, Function.comp_def, List.length_map]
        have hcongr : ∀ p ∈ selections l,
            (gpAux fuel p.2).length = Nat.factorial (l.length - 1) := by
          intro p hp
          have hlen : p.2.length + 1 = l.length := selections_snd_length hp
          rw [ih p.2 (by omega)]
          congr 1
          omega
        rw [List.map_congr_left hcongr, List.map_const', List.sum_replicate, smul_eq_mul,
          selections_length]
        have h2 : l.length = (l.length - 1) + 1 := by omega
        rw [h2, Nat.factorial_succ]
        simp

/-- The enumerator produces exactly `n!` permutations (`n` the input length). -/
theorem generatePermutations_length (l : List Nat) :
    (generatePermutations l).length = Nat.factorial l.length :=
  gpAux_length l.length l (le_refl _)


/-- Result record of `bruteForceTSP`: `{path, distance}`. -/
structure BFResult where
  path : List Nat
  distance : ℝ

/-- One iteration of `bruteForceTSP`'s `for (const perm of ...)` loop: close
the permutation, compute its total distance, and replace the incumbent only
when the candidate is smaller by more than `EPSILON`.  The accumulator is
`none` while `minDistance` is still `Infinity` (first candidate always wins). -/
noncomputable def bfStep (cities : List City) (acc : Option (ℝ × List Nat)) (perm : List Nat) :
    Option (ℝ × List Nat) :=
  let path := perm ++ [perm.headD 0]
  let distance := calculateTotalDistance path cities
  match acc with
  | none => some (distance, path)
  | some (m, bp) => if distance < m - EPSILON then some (distance, path) else some (m, bp)

/-- The enumeration-and-minimisation core of `bruteForceTSP` (everything after
the guards).  The `none` fallback is unreachable: the permutation list is
never empty. -/
noncomputable def bruteForceCore (cities : List City) : BFResult :=
  let allCities := List.range cities.length
  match (generatePermutations allCities).foldl (bfStep cities) none with
  | some (m, p) => ⟨p, m⟩
  | none => ⟨[], 0⟩

/-- `bruteForceTSP` from `tsp-solver.js`: returns `{path: [], distance: 0}`
for fewer than 2 cities, raises (modelled by `Except.error`) when
`cities.length > 10`, and otherwise minimises over all `n!` permutations. -/
noncomputable def bruteForceTSP (cities : List City) : Except String BFResult :=
  if cities.length < 2 then Except.ok ⟨[], 0⟩
  else if cities.length > 10 then
    Except.error "Brute Force TSP only practical for n <= 10"
  else Except.ok (bruteForceCore cities)

/-- Result record of `greedyTSP`: `{path, distance}`. -/
structure GreedyResult where
  path : List Nat
  distance : ℝ

/-- The inner `for (let j ...)` scan of `greedyTSP`: fold over all city
indices, skipping visited ones, keeping the strictly closest one seen so far
(`distance < nearestDistance`, so the first index attains ties).  The
accumulator is `none` while `nearestDistance` is still `Infinity`. -/
noncomputable def findNearestStep (cities : List City) (currentCity : Nat)
    (visited : List Bool) (acc : Option (Nat × ℝ)) (j : Nat) : Option (Nat × ℝ) :=
  if visited.getD j false = false then
    let d := calculateDistance (cityAt cities currentCity) (cityAt cities j)
    match acc with
    | none => some (j, d)
    | some (nc, nd) => if d < nd then some (j, d) else some (nc, nd)
  else acc

noncomputable def findNearest (cities : List City) (currentCity : Nat) (visited : List Bool) :
    Option (Nat × ℝ) :=
  (List.range cities.length).foldl (findNearestStep cities currentCity visited) none

/-- The outer `for (let i = 1; i < cities.length; i++)` loop of `greedyTSP`,
with `fuel = cities.length - 1` iterations.  The `none` branch is unreachable
for well-formed inputs (there is always an unvisited city left). -/
noncomputable def greedyLoop (cities : List City) :
    Nat → List Bool → List Nat → Nat → List Bool × List Nat × Nat
  | 0, visited, path, current => (visited, path, current)
  | fuel + 1, visited, path, current =>
      match findNearest cities current visited with
      | none => (visited, path, current)
      | some (nc, _) => greedyLoop cities fuel (visited.set nc true) (path ++ [nc]) nc

/-- `greedyTSP` from `tsp-solver.js`: start at city 0, repeatedly append the
nearest unvisited city, close the loop with city 0, and total the closed
path with the shared distance routine. -/
noncomputable def greedyTSP (cities : List City) : GreedyResult :=
  if cities.length < 2 then ⟨[], 0⟩
  else
    let visited := (List.replicate cities.length false).set 0 true
    let result := greedyLoop cities (cities.length - 1) visited [0] 0
    let closed := result.2.1 ++ [0]
    ⟨closed, calculateTotalDistance closed cities⟩

/-- `perform2OptSwap` from `tsp-solver.js`: `slice(0,i)` ++ reversed
`slice(i,k+1)` ++ `slice(k+1)`. -/
def perform2OptSwap (route : List Nat) (i k : Nat) : List Nat :=
  route.take i ++ ((route.drop i).take (k + 1 - i)).reverse ++ route.drop (k + 1)

lemma perform2OptSwap_perm (route : List Nat) (i k : Nat) (hik : i ≤ k + 1) :
    (perform2OptSwap route i k).Perm route := by
  have hdrop : (route.drop i).drop (k + 1 - i) = route.drop (k + 1) := by
    rw [List.drop_drop]
    congr 1
    omega
  have hsplit : route = route.take i ++ ((route.drop i).take (k + 1 - i) ++ route.drop (k + 1)) := by
    conv_lhs => rw [← List.take_append_drop i route]
    congr 1
    conv_lhs => rw [← List.take_append_drop (k + 1 - i) (route.drop i)]
    rw [hdrop]
  have h1 : perform2OptSwap route i k =
      route.take i ++ (((route.drop i).take (k + 1 - i)).reverse ++ route.drop (k + 1)) := by
    simp [perform2OptSwap]
  have h2 : (((route.drop i).take (k + 1 - i)).reverse ++ route.drop (k + 1)).Perm
      ((route.drop i).take (k + 1 - i) ++ route.drop (k + 1)) :=
    List.Perm.append_right _ (List.reverse_perm _)
  have h3 := List.Perm.append_left (route.take i) h2
  rw [h1]
  conv_rhs => rw [hsplit]
  exact h3

/-- The `(i, k)` scan order of `twoOpt`'s nested loops:
`i` from 1 to `n-2`, then `k` from `i+1` to `n-1`. -/
def twoOptPairs (n : Nat) : List (Nat × Nat) :=
  (List.range' 1 (n - 2)).flatMap
    (fun i => (List.range' (i + 1) (n - 1 - i)).map (fun k => (i, k)))

lemma twoOptPairs_mem {n : Nat} {p : Nat × Nat} (hp : p ∈ twoOptPairs n) :
    1 ≤ p.1 ∧ p.1 < p.2 ∧ p.2 < n := by
  unfold twoOptPairs at hp
  rcases List.mem_flatMap.mp hp with ⟨i, hi, hmem⟩
  rcases List.mem_map.mp hmem with ⟨k, hk, rfl⟩
  rw [List.mem_range'_1] at hi hk
  exact ⟨by omega, by omega, by omega⟩

/-- The body of `twoOpt`'s nested `for` loops, as a first-improvement scan:
the first pair `(i,k)` whose reversed-segment candidate beats the incumbent
by more than `EPSILON` is returned together with the candidate's distance
(mirroring the `break` out of both loops on acceptance). -/
noncomputable def findImprovement (cities : List City) (n : Nat) (route : List Nat)
    (bestDistance : ℝ) : Option (List Nat × ℝ) :=
  (twoOptPairs n).findSome? (fun p =>
    let newRoute := perform2OptSwap route p.1 p.2
    let newDistance := calculateTotalDistance newRoute cities
    if newDistance < bestDistance - EPSILON then some (newRoute, newDistance) else none)

lemma findImprovement_some {cities : List City} {n : Nat} {route r' : List Nat}
    {bd d' : ℝ} (h : findImprovement cities n route bd = some (r', d')) :
    r'.Perm route ∧ d' = calculateTotalDistance r' cities ∧ d' < bd - EPSILON := by
  unfold findImprovement at h
  rcases List.exists_of_findSome?_eq_some h with ⟨p, hp, heq⟩
  simp only at heq
  split at heq
  · rcases Option.some.inj heq with heq2
    rcases Prod.mk.injEq .. ▸ heq2 with ⟨hr, hd⟩
    subst hr
    subst hd
    refine ⟨perform2OptSwap_perm route p.1 p.2 ?_, rfl, by assumption⟩
    have := twoOptPairs_mem hp
    omega
  · exact absurd heq (by simp)

lemma countP_lt_countP_of_mem {α : Type} {l : List α} {P Q : α → Bool}
    (hPQ : ∀ x ∈ l, P x = true → Q x = true) {a : α} (ha : a ∈ l)
    (hP : P a = false) (hQ : Q a = true) : l.countP P < l.countP Q := by
  induction l with
  | nil => simp at ha
  | cons b t ih =>
    rcases List.mem_cons.mp ha with rfl | hat
    · have h1 : List.countP P (a :: t) = List.countP P t := by
        simp [List.countP_cons, hP]
      have h2 : List.countP Q (a :: t) = List.countP Q t + 1 := by
        simp [List.countP_cons, hQ]
      rw [h1, h2]
      have hmono : t.countP P ≤ t.countP Q :=
        List.countP_mono_left (fun x hx => hPQ x (List.mem_cons_of_mem _ hx))
      omega
    · rw [List.countP_cons, List.countP_cons]
      have hif : (if P b then 1 else 0) ≤ (if Q b then 1 else 0) := by
        by_cases hpb : P b = true
        · rw [if_pos hpb, if_pos (hPQ b (List.mem_cons_self b t) hpb)]
        · simp [hpb]
      have hlt := ih (fun x hx hPx => hPQ x (List.mem_cons_of_mem _ hx) hPx) hat
      omega

/-- Termination measure for `twoOpt`'s `while (improved)` loop: the number of
reorderings of the current route whose total distance lies strictly below the
incumbent.  Each accepted swap lowers the incumbent onto the distance of an
actual reordering, so this count strictly decreases. -/
noncomputable def twoOptMeasure (cities : List City) (route : List Nat) (bd : ℝ) : Nat :=
  (route.permutations).countP (fun p => decide (calculateTotalDistance p cities < bd))

lemma EPSILON_pos : (0 : ℝ) < EPSILON := by norm_num [EPSILON]

lemma twoOptMeasure_decreases {cities : List City} {route r' : List Nat} {bd d' : ℝ}
    (hperm : r'.Perm route) (hd : d' = calculateTotalDistance r' cities)
    (hlt : d' < bd - EPSILON) :
    twoOptMeasure cities r' d' < twoOptMeasure cities route bd := by
  have hbd : d' < bd := by
    have := EPSILON_pos
    linarith
  unfold twoOptMeasure
  rw [(hperm.permutations).countP_eq]
  refine countP_lt_countP_of_mem ?_ (List.mem_permutations.mpr hperm) ?_ ?_
  · intro x _ hPx
    simp only [decide_eq_true_eq] at hPx ⊢
    linarith
  · simp only [decide_eq_false_iff_not]
    rw [← hd]
    exact lt_irrefl d'
  · simp only [decide_eq_true_eq]
    rw [← hd]
    exact hbd

/-- Result record of `twoOpt`: `{route, distance, iterations}`. -/
structure TwoOptResult where
  route : List Nat
  distance : ℝ
  iterations : Nat

/-- The `while (improved)` loop of `twoOpt`: scan for the first improving
swap; on acceptance install the new route/distance, bump the counter and
restart the scan; stop when a full scan finds nothing.  Well-founded by
`twoOptMeasure`. -/
noncomputable def twoOptLoop (cities : List City) (n : Nat) (route : List Nat)
    (bestDistance : ℝ) (iterations : Nat) : List Nat × ℝ × Nat :=
  match h : findImprovement cities n route bestDistance with
  | none => (route, bestDistance, iterations)
  | some (newRoute, newDistance) =>
      twoOptLoop cities n newRoute newDistance (iterations + 1)
termination_by twoOptMeasure cities route bestDistance
decreasing_by
  obtain ⟨hp, hd, hlt⟩ := findImprovement_some h
  exact twoOptMeasure_decreases hp hd hlt

/-- `twoOpt` from `tsp-solver.js`: guards for fewer than 2 cities / too-short
initial route; normalise a closed initial route by dropping the trailing
repeat; return immediately (0 iterations) below 3 cities; otherwise run the
improvement loop and close the final route. -/
noncomputable def twoOpt (cities : List City) (initialRoute : List Nat) : TwoOptResult :=
  if cities.length < 2 then ⟨[], 0, 0⟩
  else if initialRoute.length < 2 then ⟨[], 0, 0⟩
  else
    let baseRoute :=
      if initialRoute.headD 0 = initialRoute.getLastD 0 then initialRoute.dropLast
      else initialRoute
    let n := baseRoute.length
    if n < 3 then
      let closedRoute := baseRoute ++ [baseRoute.headD 0]
      ⟨closedRoute, calculateTotalDistance closedRoute cities, 0⟩
    else
      let result := twoOptLoop cities n baseRoute (calculateTotalDistance baseRoute cities) 0
      ⟨result.1 ++ [result.1.headD 0], result.2.1, result.2.2⟩

/-- One accepted-swap transition of the improvement loop, as a step function:
`none` when a full scan finds no improving pair (loop exit). -/
noncomputable def twoOptStep (cities : List City) (n : Nat) (s : List Nat × ℝ × Nat) :
    Option (List Nat × ℝ × Nat) :=
  (findImprovement cities n s.1 s.2.1).map (fun rd => (rd.1, rd.2, s.2.2 + 1))

/-- Runs `twoOptStep` up to `steps` times; `none` signals that the loop has
already exited (reached a no-improvement state) within the budget. -/
noncomputable def twoOptStepN (cities : List City) (n : Nat) :
    Nat → List Nat × ℝ × Nat → Option (List Nat × ℝ × Nat)
  | 0, s => some s
  | steps + 1, s =>
      match twoOptStep cities n s with
      | none => none
      | some s' => twoOptStepN cities n steps s'

lemma twoOptStepN_terminates (cities : List City) (n : Nat) :
    ∀ s : List Nat × ℝ × Nat, ∃ steps : Nat, twoOptStepN cities n steps s = none := by
  intro s
  generalize hm : twoOptMeasure cities s.1 s.2.1 = m
  induction m using Nat.strong_induction_on generalizing s with
  | _ m ih =>
    cases hstep : twoOptStep cities n s with
    | none =>
        exact ⟨1, by simp [twoOptStepN, hstep]⟩
    | some s' =>
        rcases Option.map_eq_some'.mp hstep with ⟨rd, hfind, hs'⟩
        obtain ⟨hperm, hd, hlt⟩ := findImprovement_some hfind
        have hdec : twoOptMeasure cities s'.1 s'.2.1 < m := by
          rw [← hs', ← hm]
          exact twoOptMeasure_decreases hperm hd hlt
        obtain ⟨steps, hsteps⟩ := ih _ hdec s' rfl
        exact ⟨steps + 1, by simp [twoOptStepN, hstep, hsteps]⟩

/-- **C4.** In `twoOpt`, every accepted swap is strictly improving: whenever
the scan `findImprovement` accepts a candidate, the candidate's distance (the
new current total route distance) lies strictly below the incumbent minus
`EPSILON`; and from any loop state the improvement loop exits after finitely
many accepted swaps (`twoOptStepN` reaches `none`). -/
theorem twoOpt_swap_decrease_and_terminates (cities : List City) (n : Nat) :
    (∀ (route : List Nat) (bd : ℝ),
      (findImprovement cities n route bd).elim True
        (fun rd => rd.2 = calculateTotalDistance rd.1 cities ∧ rd.2 < bd - EPSILON)) ∧
    (∀ s : List Nat × ℝ × Nat, ∃ steps : Nat, twoOptStepN cities n steps s = none) := by
  constructor
  · intro route bd
    cases h : findImprovement cities n route bd with
    | none => trivial
    | some rd =>
        obtain ⟨_, hd, hlt⟩ := findImprovement_some h
        exact ⟨hd, hlt⟩
  · exact twoOptStepN_terminates cities n

/-- **C8.** With fewer than 2 cities, `greedyTSP`, `twoOpt` and
`bruteForceTSP` all return the explicit empty-route, zero-distance result
(and `bruteForceTSP` takes its `ok` branch, i.e. nothing is raised). -/
theorem insufficient_cities_trivial_results (cities : List City) (initialRoute : List Nat)
    (h : cities.length < 2) :
    greedyTSP cities = ⟨[], 0⟩ ∧ twoOpt cities initialRoute = ⟨[], 0, 0⟩ ∧
      bruteForceTSP cities = Except.ok ⟨[], 0⟩ := by
  refine ⟨?_, ?_, ?_⟩ <;> simp [greedyTSP, twoOpt, bruteForceTSP, h]

/-- Witness for C8 at the empty city list (with an arbitrary initial route). -/
theorem insufficient_cities_trivial_results_witness :
    ([] : List City).length < 2 ∧
      (greedyTSP [] = ⟨[], 0⟩ ∧ twoOpt [] [5] = ⟨[], 0, 0⟩ ∧
        bruteForceTSP [] = Except.ok ⟨[], 0⟩) :=
  ⟨by decide, insufficient_cities_trivial_results [] [5] (by decide)⟩

/-- **C2, code divergence.** The spec's hard size limit for the precomputed
exhaustive search is 9, but `bruteForceTSP`'s guard is `cities.length > 10`
(its own doc comment says "Only practical for n ≤ 9"): on a 10-city input it
does not raise a size-limit error and instead returns a normal result. -/
theorem bruteForceTSP_size_limit_not_enforced_at_ten :
    9 < (List.replicate 10 (⟨0, 0⟩ : City)).length ∧
      ∃ res, bruteForceTSP (List.replicate 10 (⟨0, 0⟩ : City)) = Except.ok res := by
  refine ⟨by simp, ⟨bruteForceCore (List.replicate 10 ⟨0, 0⟩), ?_⟩⟩
  simp [bruteForceTSP]

lemma bfStep_some (cities : List City) (x : List Nat) (m : ℝ) (bp : List Nat) :
    bfStep cities (some (m, bp)) x =
      if calculateTotalDistance (x ++ [x.headD 0]) cities < m - EPSILON
      then some (calculateTotalDistance (x ++ [x.headD 0]) cities, x ++ [x.headD 0])
      else some (m, bp) := rfl

lemma bfStep_none (cities : List City) (x : List Nat) :
    bfStep cities none x =
      some (calculateTotalDistance (x ++ [x.headD 0]) cities, x ++ [x.headD 0]) := rfl

lemma bfFold_bound (cities : List City) :
    ∀ (L : List (List Nat)) (m : ℝ) (bp : List Nat),
      ∃ m' bp', L.foldl (bfStep cities) (some (m, bp)) = some (m', bp') ∧ m' ≤ m ∧
        ∀ q ∈ L, m' ≤ calculateTotalDistance (q ++ [q.headD 0]) cities + EPSILON := by
  intro L
  induction L with
  | nil =>
      intro m bp
      exact ⟨m, bp, rfl, le_refl m, by simp⟩
  | cons x t ih =>
      intro m bp
      rw [List.foldl_cons]
      by_cases hc :
          calculateTotalDistance (x ++ [x.headD 0]) cities < m - EPSILON
      · rw [bfStep_some, if_pos hc]
        obtain ⟨m', bp', heq, hle, hall⟩ :=
          ih (calculateTotalDistance (x ++ [x.headD 0]) cities) (x ++ [x.headD 0])
        refine ⟨m', bp', heq, ?_, ?_⟩
        · have := EPSILON_pos
          linarith
        · intro q hq
          rcases List.mem_cons.mp hq with rfl | hqt
          · have := EPSILON_pos
            linarith
          · exact hall q hqt
      · rw [bfStep_some, if_neg hc]
        obtain ⟨m', bp', heq, hle, hall⟩ := ih m bp
        refine ⟨m', bp', heq, hle, ?_⟩
        intro q hq
        rcases List.mem_cons.mp hq with rfl | hqt
        · have : m ≤ calculateTotalDistance (q ++ [q.headD 0]) cities + EPSILON := by
            push_neg at hc
            linarith
          linarith
        · exact hall q hqt

lemma bfFold_none_bound (cities : List City) (L : List (List Nat)) (hL : L ≠ []) :
    ∃ m' bp', L.foldl (bfStep cities) none = some (m', bp') ∧
      ∀ q ∈ L, m' ≤ calculateTotalDistance (q ++ [q.headD 0]) cities + EPSILON := by
  cases L with
  | nil => exact absurd rfl hL
  | cons x t =>
      rw [List.foldl_cons]
      rw [bfStep_none]
      obtain ⟨m', bp', heq, hle, hall⟩ :=
        bfFold_bound cities t (calculateTotalDistance (x ++ [x.headD 0]) cities)
          (x ++ [x.headD 0])
      refine ⟨m', bp', heq, ?_⟩
      intro q hq
      rcases List.mem_cons.mp hq with rfl | hqt
      · have := EPSILON_pos
        linarith
      · exact hall q hqt

lemma generatePermutations_ne_nil (l : List Nat) : generatePermutations l ≠ [] := by
  intro h
  have := generatePermutations_length l
  rw [h] at this
  simp at this
  exact absurd this.symm (Nat.factorial_ne_zero l.length)

/-- The distance returned by `bruteForceCore` is within `EPSILON` of the
closed-tour distance of every enumerated permutation. -/
lemma bruteForceCore_le (cities : List City) (q : List Nat)
    (hq : q ∈ generatePermutations (List.range cities.length)) :
    (bruteForceCore cities).distance ≤
      calculateTotalDistance (q ++ [q.headD 0]) cities + EPSILON := by
  obtain ⟨m', bp', heq, hall⟩ :=
    bfFold_none_bound cities (generatePermutations (List.range cities.length))
      (generatePermutations_ne_nil _)
  simp only [bruteForceCore, heq]
  exact hall q hq

lemma findNearestFold_mem (cities : List City) (current : Nat) (visited : List Bool) :
    ∀ (L : List Nat) (acc : Option (Nat × ℝ)) (c : Nat) (dd : ℝ),
      L.foldl (findNearestStep cities current visited) acc = some (c, dd) →
      acc = some (c, dd) ∨ (c ∈ L ∧ visited.getD c false = false) := by
  intro L
  induction L with
  | nil =>
      intro acc c dd h
      exact Or.inl h
  | cons j t ih =>
      intro acc c dd h
      rw [List.foldl_cons] at h
      rcases ih _ c dd h with hstep | ⟨hct, hcv⟩
      · unfold findNearestStep at hstep
        by_cases hv : visited.getD j false = false
        · rw [if_pos hv] at hstep
          cases acc with
          | none =>
              simp only at hstep
              rcases Option.some.inj hstep with heq
              rcases Prod.mk.injEq .. ▸ heq with ⟨rfl, _⟩
              exact Or.inr ⟨List.mem_cons_self _ _, hv⟩
          | some p =>
              rcases p with ⟨nc, nd⟩
              simp only at hstep
              split at hstep
              · rcases Option.some.inj hstep with heq
                rcases Prod.mk.injEq .. ▸ heq with ⟨rfl, _⟩
                exact Or.inr ⟨List.mem_cons_self _ _, hv⟩
              · exact Or.inl hstep
        · rw [if_neg hv] at hstep
          exact Or.inl hstep
      · exact Or.inr ⟨List.mem_cons_of_mem _ hct, hcv⟩

lemma findNearestFold_ne_none (cities : List City) (current : Nat) (visited : List Bool) :
    ∀ (L : List Nat) (acc : Option (Nat × ℝ)),
      (acc ≠ none ∨ ∃ j ∈ L, visited.getD j false = false) →
      L.foldl (findNearestStep cities current visited) acc ≠ none := by
  intro L
  induction L with
  | nil =>
      intro acc h
      rcases h with h | ⟨j, hj, _⟩
      · exact h
      · simp at hj
  | cons j t ih =>
      intro acc h
      rw [List.foldl_cons]
      apply ih
      have hsome : ∀ (p : Nat × ℝ), acc = some p →
          findNearestStep cities current visited acc j ≠ none := by
        rintro ⟨nc, nd⟩ rfl
        unfold findNearestStep
        by_cases hv : visited.getD j false = false
        · rw [if_pos hv]
          simp only
          split <;> simp
        · rw [if_neg hv]
          simp
      rcases h with hacc | ⟨j', hj', hv'⟩
      · left
        cases acc with
        | none => exact absurd rfl hacc
        | some p => exact hsome p rfl
      · rcases List.mem_cons.mp hj' with rfl | hj't
        · left
          unfold findNearestStep
          rw [if_pos hv']
          cases acc with
          | none => simp
          | some p =>
              rcases p with ⟨nc, nd⟩
              simp only
              split <;> simp
        · right
          exact ⟨j', hj't, hv'⟩

lemma findNearest_spec (cities : List City) (current : Nat) (visited : List Bool)
    (h : ∃ j, j < cities.length ∧ visited.getD j false = false) :
    ∃ c d, findNearest cities current visited = some (c, d) ∧
      c < cities.length ∧ visited.getD c false = false := by
  obtain ⟨j, hj, hv⟩ := h
  have hne : findNearest cities current visited ≠ none := by
    unfold findNearest
    exact findNearestFold_ne_none cities current visited _ none
      (Or.inr ⟨j, List.mem_range.mpr hj, hv⟩)
  cases hfn : findNearest cities current visited with
  | none => exact absurd hfn hne
  | some p =>
      rcases p with ⟨c, d⟩
      have hmem := findNearestFold_mem cities current visited _ none c d hfn
      rcases hmem with h' | ⟨hc, hcv⟩
      · exact absurd h'.symm (by simp)
      · exact ⟨c, d, rfl, List.mem_range.mp hc, hcv⟩

lemma greedyLoop_spec (cities : List City) :
    ∀ (fuel : Nat) (visited : List Bool) (path : List Nat) (current : Nat),
      visited.length = cities.length →
      path.Nodup →
      (∀ x ∈ path, x < cities.length) →
      (∀ j, j < cities.length → (visited.getD j false = true ↔ j ∈ path)) →
      path.length + fuel = cities.length →
      ((greedyLoop cities fuel visited path current).2.1).Perm (List.range cities.length) ∧
        ∃ ext, (greedyLoop cities fuel visited path current).2.1 = path ++ ext := by
  intro fuel
  induction fuel with
  | zero =>
      intro visited path current hvlen hnd hbound hiff hlen
      constructor
      · show path.Perm (List.range cities.length)
        have hsub : path ⊆ List.range cities.length := fun x hx =>
          List.mem_range.mpr (hbound x hx)
        have hsp := hnd.subperm hsub
        refine hsp.perm_of_length_le ?_
        rw [List.length_range]
        omega
      · refine ⟨[], ?_⟩
        show path = path ++ []
        simp
  | succ fuel ih =>
      intro visited path current hvlen hnd hbound hiff hlen
      have hplen : path.length < cities.length := by omega
      have hnotall : ¬ ∀ j, j < cities.length → j ∈ path := by
        intro hall
        have hsub : List.range cities.length ⊆ path := fun x hx =>
          hall x (List.mem_range.mp hx)
        have hle := ((List.nodup_range cities.length).subperm hsub).length_le
        rw [List.length_range] at hle
        omega
      push_neg at hnotall
      obtain ⟨j, hj, hjpath⟩ := hnotall
      have hjunv : visited.getD j false = false := by
        cases hb : visited.getD j false with
        | true => exact absurd ((hiff j hj).mp hb) hjpath
        | false => rfl
      obtain ⟨nc, d, hfind, hnclt, hncunv⟩ :=
        findNearest_spec cities current visited ⟨j, hj, hjunv⟩
      have hncpath : nc ∉ path := by
        intro hmem
        have := (hiff nc hnclt).mpr hmem
        rw [hncunv] at this
        exact Bool.false_ne_true this
      have hunfold : greedyLoop cities (fuel + 1) visited path current =
          greedyLoop cities fuel (visited.set nc true) (path ++ [nc]) nc := by
        show (match findNearest cities current visited with
          | none => (visited, path, current)
          | some (nc, _) =>
              greedyLoop cities fuel (visited.set nc true) (path ++ [nc]) nc) = _
        rw [hfind]
      rw [hunfold]
      have hvlen' : (visited.set nc true).length = cities.length := by
        rw [List.length_set]
        exact hvlen
      have hnd' : (path ++ [nc]).Nodup := by
        simp [List.nodup_append, hnd, hncpath]
      have hbound' : ∀ x ∈ path ++ [nc], x < cities.length := by
        intro x hx
        rcases List.mem_append.mp hx with hx | hx
        · exact hbound x hx
        · rw [List.mem_singleton.mp hx]
          exact hnclt
      have hiff' : ∀ j', j' < cities.length →
          ((visited.set nc true).getD j' false = true ↔ j' ∈ path ++ [nc]) := by
        intro j' hj'
        by_cases hjnc : j' = nc
        · subst hjnc
          have hget : (visited.set j' true)[j']?.getD false = true := by
            rw [List.getElem?_set_self (by rw [hvlen]; exact hj')]
            rfl
          simp [hget]
        · have hget : (visited.set nc true).getD j' false = visited.getD j' false := by
            rw [List.getD_eq_getElem?_getD,
              List.getElem?_set_ne (fun h => hjnc h.symm),
              ← List.getD_eq_getElem?_getD]
          rw [hget, hiff j' hj']
          constructor
          · intro h
            exact List.mem_append.mpr (Or.inl h)
          · intro h
            rcases List.mem_append.mp h with h | h
            · exact h
            · exact absurd (List.mem_singleton.mp h) hjnc
      have hlen' : (path ++ [nc]).length + fuel = cities.length := by
        rw [List.length_append]
        simp only [List.length_singleton]
        omega
      obtain ⟨hperm, ext, hext⟩ :=
        ih (visited.set nc true) (path ++ [nc]) nc hvlen' hnd' hbound' hiff' hlen'
      refine ⟨hperm, ⟨[nc] ++ ext, ?_⟩⟩
      rw [hext, List.append_assoc]

/-- `greedyTSP` on at least two cities returns the closure of an open path
that visits every city exactly once and starts at city 0, together with that
closed path's shared-routine distance. -/
lemma greedyTSP_spec (cities : List City) (h2 : 2 ≤ cities.length) :
    ∃ p₀ : List Nat, p₀.Perm (List.range cities.length) ∧ p₀.headD 0 = 0 ∧
      greedyTSP cities = ⟨p₀ ++ [0], calculateTotalDistance (p₀ ++ [0]) cities⟩ := by
  have hguard : ¬ cities.length < 2 := by omega
  have hvlen : ((List.replicate cities.length false).set 0 true).length = cities.length := by
    simp
  have hnd : ([0] : List Nat).Nodup := by simp
  have hbound : ∀ x ∈ ([0] : List Nat), x < cities.length := by
    intro x hx
    rw [List.mem_singleton.mp hx]
    omega
  have hiff : ∀ j, j < cities.length →
      (((List.replicate cities.length false).set 0 true).getD j false = true ↔
        j ∈ ([0] : List Nat)) := by
    intro j hj
    by_cases hj0 : j = 0
    · subst hj0
      have hget : ((List.replicate cities.length false).set 0 true)[(0 : Nat)]?.getD false
          = true := by
        rw [List.getElem?_set_self (by simp; omega)]
        rfl
      simp [hget]
    · have hget : ((List.replicate cities.length false).set 0 true)[j]?.getD false
          = false := by
        rw [List.getElem?_set_ne (fun h => hj0 h.symm),
          List.getElem?_replicate_of_lt hj]
        rfl
      simp [hget, hj0]
  have hlen : ([0] : List Nat).length + (cities.length - 1) = cities.length := by
    simp only [List.length_singleton]
    omega
  obtain ⟨hperm, ext, hext⟩ :=
    greedyLoop_spec cities (cities.length - 1)
      ((List.replicate cities.length false).set 0 true) [0] 0 hvlen hnd hbound hiff hlen
  refine ⟨(greedyLoop cities (cities.length - 1)
      ((List.replicate cities.length false).set 0 true) [0] 0).2.1, hperm, ?_, ?_⟩
  · rw [hext]
    rfl
  · show greedyTSP cities = _
    unfold greedyTSP
    rw [if_neg hguard]

lemma twoOptLoop_spec (cities : List City) (n : Nat) :
    ∀ (route : List Nat) (bd : ℝ) (it : Nat), bd = calculateTotalDistance route cities →
      ((twoOptLoop cities n route bd it).1).Perm route ∧
        (twoOptLoop cities n route bd it).2.1 =
          calculateTotalDistance (twoOptLoop cities n route bd it).1 cities := by
  intro route bd it hbd
  generalize hm : twoOptMeasure cities route bd = m
  induction m using Nat.strong_induction_on generalizing route bd it with
  | _ m ih =>
    rw [twoOptLoop.eq_def]
    split
    · exact ⟨List.Perm.refl _, hbd⟩
    · rename_i r' d' hfind
      obtain ⟨hperm, hd, hlt⟩ := findImprovement_some hfind
      have hdec : twoOptMeasure cities r' d' < m := by
        rw [← hm]
        exact twoOptMeasure_decreases hperm hd hlt
      obtain ⟨hperm', hd'⟩ := ih _ hdec r' d' (it + 1) hd rfl
      exact ⟨hperm'.trans hperm, hd'⟩

lemma twoOpt_eq_of (cities : List City) (initialRoute : List Nat)
    (hg1 : ¬ cities.length < 2) (hg2 : ¬ initialRoute.length < 2)
    (hne : initialRoute.headD 0 ≠ initialRoute.getLastD 0) :
    twoOpt cities initialRoute =
      if initialRoute.length < 3 then
        ⟨initialRoute ++ [initialRoute.headD 0],
         calculateTotalDistance (initialRoute ++ [initialRoute.headD 0]) cities, 0⟩
      else
        (let result := twoOptLoop cities initialRoute.length initialRoute
            (calculateTotalDistance initialRoute cities) 0
         ⟨result.1 ++ [result.1.headD 0], result.2.1, result.2.2⟩) := by
  unfold twoOpt
  rw [if_neg hg1, if_neg hg2, if_neg hne]

lemma twoOpt_spec (cities : List City) (initialRoute : List Nat)
    (h2 : 2 ≤ cities.length) (hperm : initialRoute.Perm (List.range cities.length)) :
    ∃ r : List Nat, r.Perm (List.range cities.length) ∧
      (twoOpt cities initialRoute).distance =
        calculateTotalDistance (r ++ [r.headD 0]) cities := by
  have hg1 : ¬ cities.length < 2 := by omega
  have hlen : initialRoute.length = cities.length := by
    rw [hperm.length_eq, List.length_range]
  have hg2 : ¬ initialRoute.length < 2 := by omega
  have hnd : initialRoute.Nodup := hperm.nodup_iff.mpr (List.nodup_range cities.length)
  have hne : initialRoute.headD 0 ≠ initialRoute.getLastD 0 := by
    cases initialRoute with
    | nil => simp at hlen; omega
    | cons a t =>
        cases t with
        | nil => simp at hlen; omega
        | cons b t' => exact head_ne_getLast_of_nodup (by simp) hnd
  rw [twoOpt_eq_of cities initialRoute hg1 hg2 hne]
  by_cases h3 : initialRoute.length < 3
  · rw [if_pos h3]
    exact ⟨initialRoute, hperm, rfl⟩
  · rw [if_neg h3]
    obtain ⟨hrp, hrd⟩ := twoOptLoop_spec cities initialRoute.length initialRoute
      (calculateTotalDistance initialRoute cities) 0 rfl
    refine ⟨(twoOptLoop cities initialRoute.length initialRoute
        (calculateTotalDistance initialRoute cities) 0).1, hrp.trans hperm, ?_⟩
    have hndr : (twoOptLoop cities initialRoute.length initialRoute
        (calculateTotalDistance initialRoute cities) 0).1.Nodup :=
      (hrp.trans hperm).nodup_iff.mpr (List.nodup_range cities.length)
    have hner : (twoOptLoop cities initialRoute.length initialRoute
        (calculateTotalDistance initialRoute cities) 0).1 ≠ [] := by
      intro hnil
      have hlenr := hrp.length_eq
      rw [hnil] at hlenr
      simp at hlenr
      omega
    have hclose := calculateTotalDistance_close cities _ hndr hner
    show (twoOptLoop cities initialRoute.length initialRoute
        (calculateTotalDistance initialRoute cities) 0).2.1 = _
    rw [hrd, hclose]

/-- **C1.** For 2 ≤ n ≤ 9 cities, the distance found by `bruteForceTSP` is at
most `greedyTSP`'s distance plus `EPSILON`, and at most `twoOpt`'s distance
plus `EPSILON` for any initial route visiting each city exactly once. -/
theorem bruteforce_optimality_invariant (cities : List City) (initialRoute : List Nat)
    (h2 : 2 ≤ cities.length) (h9 : cities.length ≤ 9)
    (hperm : initialRoute.Perm (List.range cities.length)) :
    ∃ res, bruteForceTSP cities = Except.ok res ∧
      res.distance ≤ (greedyTSP cities).distance + EPSILON ∧
      res.distance ≤ (twoOpt cities initialRoute).distance + EPSILON := by
  have hg1 : ¬ cities.length < 2 := by omega
  have hg10 : ¬ cities.length > 10 := by omega
  refine ⟨bruteForceCore cities, ?_, ?_, ?_⟩
  · unfold bruteForceTSP
    rw [if_neg hg1, if_neg hg10]
  · obtain ⟨p₀, hp₀, hhead, hgre⟩ := greedyTSP_spec cities h2
    have hle := bruteForceCore_le cities p₀ (mem_generatePermutations_of_perm _ p₀ hp₀)
    rw [hhead] at hle
    rw [hgre]
    exact hle
  · obtain ⟨r, hr, hdist⟩ := twoOpt_spec cities initialRoute h2 hperm
    have hle := bruteForceCore_le cities r (mem_generatePermutations_of_perm _ r hr)
    rw [hdist]
    exact hle

/-- Witness for C1 on two coincident cities and the initial route `[0, 1]`. -/
theorem bruteforce_optimality_invariant_witness :
    2 ≤ ([⟨0, 0⟩, ⟨0, 0⟩] : List City).length ∧
      ([⟨0, 0⟩, ⟨0, 0⟩] : List City).length ≤ 9 ∧
      ([0, 1] : List Nat).Perm (List.range ([⟨0, 0⟩, ⟨0, 0⟩] : List City).length) ∧
      ∃ res, bruteForceTSP [⟨0, 0⟩, ⟨0, 0⟩] = Except.ok res ∧
        res.distance ≤ (greedyTSP [⟨0, 0⟩, ⟨0, 0⟩]).distance + EPSILON ∧
        res.distance ≤ (twoOpt [⟨0, 0⟩, ⟨0, 0⟩] [0, 1]).distance + EPSILON :=
  ⟨by decide, by decide, by decide,
    bruteforce_optimality_invariant [⟨0, 0⟩, ⟨0, 0⟩] [0, 1]
      (by decide) (by decide) (by decide)⟩

/-- A trace event.  The textual `metadata`/`explanation` fields of the source
carry no algorithmic content and are omitted; the algorithmically meaningful
fields (`type`, `fromCity`, `toCity`, `path`, `distance`) are kept, absent
fields being `none`. -/
structure Step where
  type : String
  fromCity : Option Nat := none
  toCity : Option Nat := none
  path : Option (List Nat) := none
  distance : Option ℝ := none

/-- The `factorial` helper of `bruteForceStepGenerator.js` (the same loop is
inlined in `runBruteForceLive`): `result = 1; for i in 2..n: result *= i`. -/
def factorialJS (n : Nat) : Nat :=
  (List.range' 2 (n - 1)).foldl (· * ·) 1

lemma factorialJS_eq (n : Nat) : factorialJS n = Nat.factorial n := by
  induction n with
  | zero => rfl
  | succ n ih =>
      cases n with
      | zero => rfl
      | succ m =>
          have hr : List.range' 2 (m + 1) 1 = List.range' 2 m 1 ++ [2 + m] := by
            have hcat := @List.range'_concat 1 2 m
            simpa using hcat
          unfold factorialJS at ih ⊢
          simp only [Nat.succ_sub_one] at ih ⊢
          rw [hr, List.foldl_append]
          simp only [List.foldl_cons, List.foldl_nil]
          rw [ih, Nat.factorial_succ, Nat.mul_comm]
          congr 1
          omega

/-- Loop state of `generateBruteForceSteps`: permutation counter, sampled
counter, incumbent (`none` while `bestDistance` is `Infinity` and `bestPath`
is `null`), and the emitted steps so far. -/
structure BFGenState where
  permutationCount : Nat
  sampledCount : Nat
  best : Option (ℝ × List Nat)
  steps : List Step

/-- One iteration of `generateBruteForceSteps`'s `for (const perm ...)` loop.
The counter always advances, but the distance computation, the best-distance
bookkeeping and the step emission all sit inside the
`permutationCount % samplingRate === 0` sampling test, exactly as in the
source. -/
noncomputable def bfGenStep (cities : List City) (samplingRate : Nat)
    (st : BFGenState) (perm : List Nat) : BFGenState :=
  let count := st.permutationCount + 1
  if count % samplingRate = 0 then
    let distance := calculateTotalDistance perm cities
    let sampled := st.sampledCount + 1
    match st.best with
    | none =>
        ⟨count, sampled, some (distance, perm ++ [perm.headD 0]),
          st.steps ++ [⟨"best_found", none, none, none, some distance⟩,
            ⟨"permutation_check", none, none, none, some distance⟩]⟩
    | some (bd, bp) =>
        if distance < bd - EPSILON then
          ⟨count, sampled, some (distance, perm ++ [perm.headD 0]),
            st.steps ++ [⟨"best_found", none, none, none, some distance⟩,
              ⟨"permutation_check", none, none, none, some distance⟩]⟩
        else
          ⟨count, sampled, some (bd, bp),
            st.steps ++ [⟨"permutation_check", none, none, none, some distance⟩]⟩
  else ⟨count, st.sampledCount, st.best, st.steps⟩

/-- `generateBruteForceSteps` from `bruteForceStepGenerator.js`.  Returns
`none` when the run dereferences the `null` incumbent while building the
closing `metadata_update` step (`bestPath.slice(0, -1)` throws a `TypeError`
whenever no permutation was ever sampled); otherwise the full step list. -/
noncomputable def generateBruteForceSteps (cities : List City) (samplingRate : Nat) :
    Option (List Step) :=
  let allCities := List.range cities.length
  let final := (generatePermutations allCities).foldl (bfGenStep cities samplingRate)
    ⟨0, 0, none, [⟨"metadata_update", none, none, none, none⟩]⟩
  match final.best with
  | none => none
  | some (bd, bp) =>
      let finalPath := if bp.getLastD 0 ≠ bp.headD 0 then bp ++ [bp.headD 0] else bp
      some (final.steps ++
        [⟨"metadata_update", none, none, none, none⟩,
         ⟨"final_result", none, none, some finalPath, some bd⟩])

/-- **C3, code divergence.** With `samplingRate = 3` on a 2-city instance
(`2 ≤ n ≤ 9`, `samplingRate ≥ 1`), neither of the 2 permutations is sampled
(`1 % 3 ≠ 0`, `2 % 3 ≠ 0`), so the best-distance bookkeeping — which the
source keeps inside the sampling test — never runs: `bestPath` stays `null`,
the closing step construction crashes (modelled by `none`), and no
`final_result` step carrying `bruteForceTSP`'s distance exists, although
`bruteForceTSP` itself succeeds on the same cities. -/
theorem generateBruteForceSteps_sampling_skips_bookkeeping :
    2 ≤ ([⟨0, 0⟩, ⟨0, 0⟩] : List City).length ∧
      ([⟨0, 0⟩, ⟨0, 0⟩] : List City).length ≤ 9 ∧ 1 ≤ 3 ∧
      generateBruteForceSteps [⟨0, 0⟩, ⟨0, 0⟩] 3 = none ∧
      ∃ res, bruteForceTSP [⟨0, 0⟩, ⟨0, 0⟩] = Except.ok res := by
  refine ⟨by decide, by decide, by decide, ?_, ?_⟩
  · rfl
  · exact ⟨bruteForceCore [⟨0, 0⟩, ⟨0, 0⟩], by simp [bruteForceTSP]⟩

/-- The candidate scan of `generateGreedySteps`'s step loop
(`for (const cityId of candidates)` with `dist < minDist`): the accumulator
is `none` while `minDist` is still `Infinity`. -/
noncomputable def nearestOfCandidates (cities : List City) (current : Nat)
    (candidates : List Nat) : Option (Nat × ℝ) :=
  candidates.foldl
    (fun acc cityId =>
      let dist := calculateDistance (cityAt cities current) (cityAt cities cityId)
      match acc with
      | none => some (cityId, dist)
      | some (nc, nd) => if dist < nd then some (cityId, dist) else some (nc, nd))
    none

/-- One index of the inner scan of `generateGreedySteps`'s
path-reconstruction loop (`if (!innerVisited.has(i)) { ... }`), with the
visited set modelled as the list of its members. -/
noncomputable def nearestSetStep (cities : List City) (current : Nat) (vis : List Nat)
    (acc : Option (Nat × ℝ)) (i : Nat) : Option (Nat × ℝ) :=
  if i ∈ vis then acc
  else
    let dist := calculateDistance (cityAt cities current) (cityAt cities i)
    match acc with
    | none => some (i, dist)
    | some (nc, nd) => if dist < nd then some (i, dist) else some (nc, nd)

/-- The inner scan of `generateGreedySteps`'s path-reconstruction loop
(`for (let i = 0; i < n; i++) ...`). -/
noncomputable def nearestOfUnvisitedSet (cities : List City) (current : Nat)
    (vis : List Nat) : Option (Nat × ℝ) :=
  (List.range cities.length).foldl (nearestSetStep cities current vis) none

/-- The step-emission loop of `generateGreedySteps`
(`while (visited.size < n)`): emits one `candidate_edge` step per unvisited
city, then a `decision` and an `edge_added` step for the nearest one.  Fuel
`n - 1` covers the run exactly (each pass visits one new city). -/
noncomputable def greedyEmitLoop (cities : List City) :
    Nat → List Nat → Nat → List Step → List Nat × Nat × List Step
  | 0, vis, current, steps => (vis, current, steps)
  | fuel + 1, vis, current, steps =>
      if vis.length < cities.length then
        let candidates := (List.range cities.length).filter (fun i => !(vis.contains i))
        let candidateSteps := candidates.map
          (fun cityId => (⟨"candidate_edge", some current, some cityId, none, none⟩ : Step))
        match nearestOfCandidates cities current candidates with
        | none => (vis, current, steps ++ candidateSteps)
        | some (nearest, _) =>
            greedyEmitLoop cities fuel (vis ++ [nearest]) nearest
              (steps ++ candidateSteps ++
                [⟨"decision", some current, some nearest, none, none⟩,
                 ⟨"edge_added", some current, some nearest, none, none⟩])
      else (vis, current, steps)

/-- The path-reconstruction loop of `generateGreedySteps`
(`while (innerVisited.size < n)`), which re-runs the greedy selection to
build `visitedOrder`. -/
noncomputable def greedyReconLoop (cities : List City) :
    Nat → List Nat → List Nat → Nat → List Nat
  | 0, _, order, _ => order
  | fuel + 1, vis, order, current =>
      if vis.length < cities.length then
        match nearestOfUnvisitedSet cities current vis with
        | none => order
        | some (nearest, _) =>
            greedyReconLoop cities fuel (vis ++ [nearest]) (order ++ [nearest]) nearest
      else order

/-- `generateGreedySteps` from `greedyStepGenerator.js`: initial
`metadata_update`, the emission loop, a `route_closed` step, the
reconstructed order's closing `metadata_update`, and the terminal
`final_result` step carrying the closed route and its shared-routine total.
(For `n = 0` the source would throw on `cities[0]`; this model is total, and
the claims only use `n ≥ 2`.) -/
noncomputable def generateGreedySteps (cities : List City) : List Step :=
  let n := cities.length
  let emit := greedyEmitLoop cities (n - 1) [0] 0 [⟨"metadata_update", none, none, none, none⟩]
  let steps1 := emit.2.2 ++ [⟨"route_closed", some emit.2.1, some 0, none, none⟩]
  let visitedOrder := greedyReconLoop cities (n - 1) [0] [0] 0 ++ [0]
  let totalDistance := calculateTotalDistance visitedOrder cities
  steps1 ++ [⟨"metadata_update", none, none, none, none⟩,
    ⟨"final_result", none, none, some visitedOrder, some totalDistance⟩]

lemma nearestSet_eq_findNearest (cities : List City) (current : Nat) (vis : List Nat)
    (visited : List Bool)
    (hcorr : ∀ j, j < cities.length → (j ∈ vis ↔ visited.getD j false = true)) :
    nearestOfUnvisitedSet cities current vis = findNearest cities current visited := by
  unfold nearestOfUnvisitedSet findNearest
  have key : ∀ (L : List Nat), (∀ j ∈ L, j < cities.length) → ∀ acc,
      L.foldl (nearestSetStep cities current vis) acc =
        L.foldl (findNearestStep cities current visited) acc := by
    intro L
    induction L with
    | nil => intro _ acc; rfl
    | cons j t ih =>
        intro hL acc
        rw [List.foldl_cons, List.foldl_cons]
        have hj : j < cities.length := hL j (List.mem_cons_self _ _)
        have hstep : nearestSetStep cities current vis acc j =
            findNearestStep cities current visited acc j := by
          by_cases hmem : j ∈ vis
          · have hv : visited.getD j false = true := (hcorr j hj).mp hmem
            unfold nearestSetStep findNearestStep
            rw [if_pos hmem, hv]
            simp
          · have hv : visited.getD j false = false := by
              cases hb : visited.getD j false with
              | true => exact absurd ((hcorr j hj).mpr hb) hmem
              | false => rfl
            unfold nearestSetStep findNearestStep
            rw [if_neg hmem, hv]
            simp
        rw [hstep]
        exact ih (fun x hx => hL x (List.mem_cons_of_mem _ hx)) _
  exact key (List.range cities.length) (fun j hj => List.mem_range.mp hj) none

lemma greedyReconLoop_eq_greedyLoop (cities : List City) :
    ∀ (fuel : Nat) (vis : List Nat) (visited : List Bool) (path : List Nat) (current : Nat),
      visited.length = cities.length →
      (∀ j, j < cities.length → (j ∈ vis ↔ visited.getD j false = true)) →
      vis.length + fuel = cities.length →
      greedyReconLoop cities fuel vis path current =
        (greedyLoop cities fuel visited path current).2.1 := by
  intro fuel
  induction fuel with
  | zero =>
      intro vis visited path current _ _ _
      rfl
  | succ fuel ih =>
      intro vis visited path current hvlen hcorr hsum
      have hcond : vis.length < cities.length := by omega
      show (if vis.length < cities.length then
          match nearestOfUnvisitedSet cities current vis with
          | none => path
          | some (nearest, _) =>
              greedyReconLoop cities fuel (vis ++ [nearest]) (path ++ [nearest]) nearest
        else path) = _
      rw [if_pos hcond, nearestSet_eq_findNearest cities current vis visited hcorr]
      have hgl : greedyLoop cities (fuel + 1) visited path current =
          match findNearest cities current visited with
          | none => (visited, path, current)
          | some (nc, _) =>
              greedyLoop cities fuel (visited.set nc true) (path ++ [nc]) nc := rfl
      rw [hgl]
      cases hfind : findNearest cities current visited with
      | none => rfl
      | some p =>
          rcases p with ⟨nc, d⟩
          rcases findNearestFold_mem cities current visited _ none nc d hfind with
            h' | ⟨hmemr, hunv⟩
          · exact absurd h'.symm (by simp)
          · have hnclt : nc < cities.length := List.mem_range.mp hmemr
            have hcorr' : ∀ j, j < cities.length →
                (j ∈ vis ++ [nc] ↔ (visited.set nc true).getD j false = true) := by
              intro j hj
              by_cases hjnc : j = nc
              · subst hjnc
                have hget : (visited.set j true)[j]?.getD false = true := by
                  rw [List.getElem?_set_self (by rw [hvlen]; exact hj)]
                  rfl
                simp [hget]
              · have hget : (visited.set nc true)[j]?.getD false =
                    visited.getD j false := by
                  rw [List.getElem?_set_ne (fun h => hjnc h.symm),
                    ← List.getD_eq_getElem?_getD]
                constructor
                · intro h
                  rcases List.mem_append.mp h with h | h
                  · rw [List.getD_eq_getElem?_getD, hget]
                    exact (hcorr j hj).mp h
                  · exact absurd (List.mem_singleton.mp h) hjnc
                · intro h
                  rw [List.getD_eq_getElem?_getD, hget] at h
                  exact List.mem_append.mpr (Or.inl ((hcorr j hj).mpr h))
            have hvlen' : (visited.set nc true).length = cities.length := by
              rw [List.length_set]
              exact hvlen
            have hsum' : (vis ++ [nc]).length + fuel = cities.length := by
              rw [List.length_append]
              simp only [List.length_singleton]
              omega
            exact ih (vis ++ [nc]) (visited.set nc true) (path ++ [nc]) nc
              hvlen' hcorr' hsum'

/-- **C6.** For at least 2 cities, the terminal step of `generateGreedySteps`
is a `final_result` step carrying exactly the closed route and the total
distance that `greedyTSP` returns on the same city list: the generator's
reconstruction walk makes the same nearest-unvisited decisions as the
algorithm. -/
theorem generateGreedySteps_final_result_matches_greedyTSP (cities : List City)
    (h2 : 2 ≤ cities.length) :
    (generateGreedySteps cities).getLast? =
      some ⟨"final_result", none, none, some (greedyTSP cities).path,
        some (greedyTSP cities).distance⟩ := by
  have hguard : ¬ cities.length < 2 := by omega
  have hgre : greedyTSP cities =
      ⟨(greedyLoop cities (cities.length - 1)
          ((List.replicate cities.length false).set 0 true) [0] 0).2.1 ++ [0],
        calculateTotalDistance
          ((greedyLoop cities (cities.length - 1)
            ((List.replicate cities.length false).set 0 true) [0] 0).2.1 ++ [0]) cities⟩ := by
    unfold greedyTSP
    rw [if_neg hguard]
  have hvlen : ((List.replicate cities.length false).set 0 true).length = cities.length := by
    simp
  have hcorr : ∀ j, j < cities.length →
      (j ∈ ([0] : List Nat) ↔
        ((List.replicate cities.length false).set 0 true).getD j false = true) := by
    intro j hj
    by_cases hj0 : j = 0
    · subst hj0
      have hget : ((List.replicate cities.length false).set 0 true)[(0 : Nat)]?.getD false
          = true := by
        rw [List.getElem?_set_self (by simp; omega)]
        rfl
      simp [hget]
    · have hget : ((List.replicate cities.length false).set 0 true)[j]?.getD false
          = false := by
        rw [List.getElem?_set_ne (fun h => hj0 h.symm),
          List.getElem?_replicate_of_lt hj]
        rfl
      simp [hget, hj0]
  have hsum : ([0] : List Nat).length + (cities.length - 1) = cities.length := by
    simp only [List.length_singleton]
    omega
  have heq := greedyReconLoop_eq_greedyLoop cities (cities.length - 1) [0]
    ((List.replicate cities.length false).set 0 true) [0] 0 hvlen hcorr hsum
  have hlast : ∀ (l : List Step) (a b : Step), (l ++ [a, b]).getLast? = some b := by
    intro l a b
    rw [show l ++ [a, b] = (l ++ [a]) ++ [b] by simp, List.getLast?_concat]
  simp only [generateGreedySteps]
  rw [hlast, hgre, heq]

/-- Witness for C6 on two coincident cities. -/
theorem generateGreedySteps_final_result_matches_greedyTSP_witness :
    2 ≤ ([⟨0, 0⟩, ⟨0, 0⟩] : List City).length ∧
      (generateGreedySteps [⟨0, 0⟩, ⟨0, 0⟩]).getLast? =
        some ⟨"final_result", none, none, some (greedyTSP [⟨0, 0⟩, ⟨0, 0⟩]).path,
          some (greedyTSP [⟨0, 0⟩, ⟨0, 0⟩]).distance⟩ :=
  ⟨by decide, generateGreedySteps_final_result_matches_greedyTSP [⟨0, 0⟩, ⟨0, 0⟩] (by decide)⟩

/-- Result record of `runBruteForceLive`:
`{path, distance, permutationsChecked, totalPermutations}`.  `path = none`
and `distance = none` model the source's `bestRoute = null` /
`bestDistance = Infinity` when no permutation was evaluated. -/
structure LiveResult where
  path : Option (List Nat)
  distance : Option ℝ
  permutationsChecked : Nat
  totalPermutations : Nat

/-- `calculatePathDistance` from `ui-manager.js` (the live engine's own
distance routine): sums consecutive edges and then always adds the edge from
the last entry back to the first. -/
noncomputable def calculatePathDistance (path : List Nat) (cities : List City) : ℝ :=
  consecSum cities path +
    calculateDistance (cityAt cities (path.getLastD 0)) (cityAt cities (path.headD 0))

/-- The incumbent update of `runBruteForceLive`'s loop body: close the
permutation, compute its distance with the live engine's own routine, and
update on strict improvement (`distance < bestDistance`, no epsilon; the
`none` accumulator plays `Infinity`). -/
noncomputable def liveBestStep (cities : List City) (best : Option (ℝ × List Nat))
    (perm : List Nat) : Option (ℝ × List Nat) :=
  let fullPath := perm ++ [perm.headD 0]
  let distance := calculatePathDistance fullPath cities
  match best with
  | none => some (distance, fullPath)
  | some (bd, bp) => if distance < bd then some (distance, fullPath) else some (bd, bp)

lemma liveBestStep_none (cities : List City) (perm : List Nat) :
    liveBestStep cities none perm =
      some (calculatePathDistance (perm ++ [perm.headD 0]) cities,
        perm ++ [perm.headD 0]) := rfl

lemma liveBestStep_some (cities : List City) (bd : ℝ) (bp : List Nat) (perm : List Nat) :
    liveBestStep cities (some (bd, bp)) perm =
      if calculatePathDistance (perm ++ [perm.headD 0]) cities < bd
      then some (calculatePathDistance (perm ++ [perm.headD 0]) cities,
        perm ++ [perm.headD 0])
      else some (bd, bp) := rfl

/-- The `for (const perm of ...)` loop of `runBruteForceLive`.  The shared
cancellation token is modelled by `cancelAfter`: the flag read at the top of
an iteration returns `true` exactly once `cancelAfter` permutations have been
checked (the controller sets it once, mid-run, at an iteration boundary).
Rendering and the per-iteration suspension are external effects with no
bearing on the returned data. -/
noncomputable def liveLoop (cities : List City) (cancelAfter : Nat) :
    List (List Nat) → Nat → Option (ℝ × List Nat) → Nat × Option (ℝ × List Nat)
  | [], checked, best => (checked, best)
  | perm :: rest, checked, best =>
      if cancelAfter ≤ checked then (checked, best)
      else liveLoop cities cancelAfter rest (checked + 1) (liveBestStep cities best perm)

/-- `runBruteForceLive` from `ui-manager.js`: raises (modelled by
`Except.error`) for more than 9 cities, otherwise enumerates the `n!`
permutations until completion or cancellation and returns the best route
found, its distance, and the checked/total counters. -/
noncomputable def runBruteForceLive (cities : List City) (cancelAfter : Nat) :
    Except String LiveResult :=
  if cities.length > 9 then Except.error "Brute Force limited to 9 cities"
  else
    let totalPerms := factorialJS cities.length
    let allCities := List.range cities.length
    let result := liveLoop cities cancelAfter (generatePermutations allCities) 0 none
    Except.ok ⟨result.2.map (fun p => p.2), result.2.map (fun p => p.1),
      result.1, totalPerms⟩

lemma liveLoop_cons (cities : List City) (cancelAfter : Nat) (perm : List Nat)
    (rest : List (List Nat)) (checked : Nat) (best : Option (ℝ × List Nat))
    (h : ¬ cancelAfter ≤ checked) :
    liveLoop cities cancelAfter (perm :: rest) checked best =
      liveLoop cities cancelAfter rest (checked + 1) (liveBestStep cities best perm) := by
  show (if cancelAfter ≤ checked then (checked, best) else _) = _
  rw [if_neg h]

lemma liveLoop_checked (cities : List City) (cancelAfter : Nat) :
    ∀ (L : List (List Nat)) (checked : Nat) (best : Option (ℝ × List Nat)),
      checked ≤ cancelAfter →
      (liveLoop cities cancelAfter L checked best).1 = min cancelAfter (checked + L.length) := by
  intro L
  induction L with
  | nil =>
      intro checked best h
      show checked = _
      simp only [List.length_nil]
      omega
  | cons perm rest ih =>
      intro checked best h
      by_cases hstop : cancelAfter ≤ checked
      · show (if cancelAfter ≤ checked then (checked, best) else _).1 = _
        rw [if_pos hstop]
        simp only [List.length_cons]
        omega
      · rw [liveLoop_cons cities cancelAfter perm rest checked best hstop,
          ih (checked + 1) _ (by omega)]
        simp only [List.length_cons]
        omega

lemma liveLoop_best (cities : List City) (cancelAfter : Nat) :
    ∀ (L : List (List Nat)) (checked : Nat) (best : Option (ℝ × List Nat)),
      (∀ bd0 bp0, best = some (bd0, bp0) →
        ∃ bd bp, (liveLoop cities cancelAfter L checked best).2 = some (bd, bp) ∧ bd ≤ bd0) ∧
      (∀ perm ∈ L.take (cancelAfter - checked),
        ∃ bd bp, (liveLoop cities cancelAfter L checked best).2 = some (bd, bp) ∧
          bd ≤ calculatePathDistance (perm ++ [perm.headD 0]) cities) := by
  intro L
  induction L with
  | nil =>
      intro checked best
      constructor
      · intro bd0 bp0 hb
        exact ⟨bd0, bp0, hb, le_refl _⟩
      · intro perm hperm
        simp at hperm
  | cons permHead rest ih =>
      intro checked best
      by_cases hstop : cancelAfter ≤ checked
      · have hred : liveLoop cities cancelAfter (permHead :: rest) checked best =
            (checked, best) := by
          show (if cancelAfter ≤ checked then (checked, best) else _) = _
          rw [if_pos hstop]
        constructor
        · intro bd0 bp0 hb
          rw [hred]
          exact ⟨bd0, bp0, hb, le_refl _⟩
        · intro perm hperm
          have hz : cancelAfter - checked = 0 := by omega
          rw [hz] at hperm
          simp at hperm
      · have hbest' : ∃ bd1 bp1, liveBestStep cities best permHead = some (bd1, bp1) ∧
            bd1 ≤ calculatePathDistance (permHead ++ [permHead.headD 0]) cities ∧
            (∀ bd0 bp0, best = some (bd0, bp0) → bd1 ≤ bd0) := by
          cases best with
          | none =>
              refine ⟨_, _, liveBestStep_none cities permHead, le_refl _, ?_⟩
              intro bd0 bp0 hb
              exact absurd hb (by simp)
          | some p =>
              rcases p with ⟨bd0, bp0⟩
              rw [liveBestStep_some]
              by_cases hlt :
                  calculatePathDistance (permHead ++ [permHead.headD 0]) cities < bd0
              · refine ⟨_, _, by rw [if_pos hlt], le_refl _, ?_⟩
                intro bd0' bp0' hb
                rcases Option.some.inj hb with heq
                rcases Prod.mk.injEq .. ▸ heq with ⟨rfl, _⟩
                exact le_of_lt hlt
              · refine ⟨bd0, bp0, by rw [if_neg hlt], le_of_not_lt hlt, ?_⟩
                intro bd0' bp0' hb
                rcases Option.some.inj hb with heq
                rcases Prod.mk.injEq .. ▸ heq with ⟨rfl, _⟩
                exact le_refl _
        obtain ⟨bd1, bp1, hbeq, hbd1d, hbmono⟩ := hbest'
        have hred : liveLoop cities cancelAfter (permHead :: rest) checked best =
            liveLoop cities cancelAfter rest (checked + 1) (some (bd1, bp1)) := by
          rw [liveLoop_cons cities cancelAfter permHead rest checked best hstop, hbeq]
        obtain ⟨ihA, ihB⟩ := ih (checked + 1) (some (bd1, bp1))
        constructor
        · intro bd0 bp0 hb
          obtain ⟨bd, bp, hres, hle⟩ := ihA bd1 bp1 rfl
          rw [hred]
          exact ⟨bd, bp, hres, le_trans hle (hbmono bd0 bp0 hb)⟩
        · intro perm hperm
          have htake : (permHead :: rest).take (cancelAfter - checked) =
              permHead :: rest.take (cancelAfter - (checked + 1)) := by
            have hsucc : cancelAfter - checked = (cancelAfter - (checked + 1)) + 1 := by
              omega
            rw [hsucc, List.take_succ_cons]
          rw [htake] at hperm
          rcases List.mem_cons.mp hperm with rfl | hpr
          · obtain ⟨bd, bp, hres, hle⟩ := ihA bd1 bp1 rfl
            rw [hred]
            exact ⟨bd, bp, hres, le_trans hle hbd1d⟩
          · obtain ⟨bd, bp, hres, hle⟩ := ihB perm hpr
            rw [hred]
            exact ⟨bd, bp, hres, hle⟩

/-- **C7.** If the cancellation token is set mid-run (after `cancelAfter`
permutations, strictly before all `n!` are enumerated), `runBruteForceLive`
resolves normally (`Except.ok`, not an error), its checked counter equals
`cancelAfter` and is strictly below the total, and the returned best distance
is no worse than the distance of any permutation evaluated before
cancellation. -/
theorem runBruteForceLive_cancellation (cities : List City) (cancelAfter : Nat)
    (h9 : cities.length ≤ 9) (hc : cancelAfter < factorialJS cities.length) :
    ∃ res, runBruteForceLive cities cancelAfter = Except.ok res ∧
      res.permutationsChecked = cancelAfter ∧
      res.permutationsChecked < res.totalPermutations ∧
      ∀ perm ∈ (generatePermutations (List.range cities.length)).take cancelAfter,
        ∃ bd, res.distance = some bd ∧
          bd ≤ calculatePathDistance (perm ++ [perm.headD 0]) cities := by
  have hguard : ¬ cities.length > 9 := by omega
  have hlen : (generatePermutations (List.range cities.length)).length =
      factorialJS cities.length := by
    rw [generatePermutations_length, List.length_range, factorialJS_eq]
  have hchecked := liveLoop_checked cities cancelAfter
    (generatePermutations (List.range cities.length)) 0 none (by omega)
  obtain ⟨_, hB⟩ := liveLoop_best cities cancelAfter
    (generatePermutations (List.range cities.length)) 0 none
  refine ⟨⟨(liveLoop cities cancelAfter (generatePermutations (List.range cities.length))
        0 none).2.map (fun p => p.2),
      (liveLoop cities cancelAfter (generatePermutations (List.range cities.length))
        0 none).2.map (fun p => p.1),
      (liveLoop cities cancelAfter (generatePermutations (List.range cities.length))
        0 none).1,
      factorialJS cities.length⟩, ?_, ?_, ?_, ?_⟩
  · unfold runBruteForceLive
    rw [if_neg hguard]
  · show (liveLoop cities cancelAfter (generatePermutations (List.range cities.length))
        0 none).1 = cancelAfter
    rw [hchecked, hlen]
    omega
  · show (liveLoop cities cancelAfter (generatePermutations (List.range cities.length))
        0 none).1 < factorialJS cities.length
    rw [hchecked, hlen]
    omega
  · intro perm hperm
    have hperm' : perm ∈ (generatePermutations (List.range cities.length)).take
        (cancelAfter - 0) := hperm
    obtain ⟨bd, bp, hres, hle⟩ := hB perm hperm'
    refine ⟨bd, ?_, hle⟩
    show ((liveLoop cities cancelAfter (generatePermutations (List.range cities.length))
        0 none).2.map (fun p => p.1)) = some bd
    rw [hres]
    rfl

/-- Witness for C7: two coincident cities, cancellation after 1 of the 2
permutations. -/
theorem runBruteForceLive_cancellation_witness :
    ([⟨0, 0⟩, ⟨0, 0⟩] : List City).length ≤ 9 ∧
      1 < factorialJS ([⟨0, 0⟩, ⟨0, 0⟩] : List City).length ∧
      ∃ res, runBruteForceLive [⟨0, 0⟩, ⟨0, 0⟩] 1 = Except.ok res ∧
        res.permutationsChecked = 1 ∧
        res.permutationsChecked < res.totalPermutations ∧
        ∀ perm ∈ (generatePermutations
            (List.range ([⟨0, 0⟩, ⟨0, 0⟩] : List City).length)).take 1,
          ∃ bd, res.distance = some bd ∧
            bd ≤ calculatePathDistance (perm ++ [perm.headD 0]) [⟨0, 0⟩, ⟨0, 0⟩] :=
  ⟨by decide, by decide,
    runBruteForceLive_cancellation [⟨0, 0⟩, ⟨0, 0⟩] 1 (by decide) (by decide)⟩

/-- The mutable state of `StepController` (`ui-manager.js`).  The
`playbackInterval` timer handle is abstracted away: `isPlaying` tracks
whether the recurring timer is armed, and a timer callback is modelled by
the explicit `tick` operation.  The observer callbacks only read state and
are omitted. -/
structure SCState where
  steps : List Step
  currentStepIndex : Int
  isPlaying : Bool
  playbackSpeed : Nat
  algorithmName : String
  totalCities : Nat
  userRoute : List Nat

/-- The constructor state of `StepController`. -/
def SCState.initial : SCState :=
  ⟨[], -1, false, 500, "", 0, []⟩

/-- `pause()`: no-op when not playing; otherwise stop the timer. -/
def scPause (s : SCState) : SCState :=
  if s.isPlaying then { s with isPlaying := false } else s

/-- `clear()`: pause, drop all steps, reset the position and the context. -/
def scClear (s : SCState) : SCState :=
  { scPause s with
    steps := []
    currentStepIndex := -1
    algorithmName := ""
    totalCities := 0
    userRoute := [] }

/-- `initialize(algorithmName, totalCities, userRoute)`: clear, install the
new context, reset the index to −1. -/
def scInitialize (name : String) (totalCities : Nat) (userRoute : List Nat)
    (s : SCState) : SCState :=
  { scClear s with
    algorithmName := name
    totalCities := totalCities
    userRoute := userRoute
    currentStepIndex := -1 }

/-- `addStep(step)`: refuse steps without a `type` (the source logs an error
and returns), otherwise append. -/
def scAddStep (s : SCState) (step : Step) : SCState :=
  if step.type = "" then s else { s with steps := s.steps ++ [step] }

/-- `addSteps(stepsArray)`: `forEach(addStep)`. -/
def scAddSteps (s : SCState) (stepsArray : List Step) : SCState :=
  stepsArray.foldl scAddStep s

/-- `getCurrentStep()`: `null` outside `0 .. steps.length - 1`, otherwise the
step at the current index. -/
def scGetCurrentStep (s : SCState) : Option Step :=
  if s.currentStepIndex < 0 ∨ (s.steps.length : Int) ≤ s.currentStepIndex then none
  else s.steps[s.currentStepIndex.toNat]?

/-- `next()`: advance when not yet at the last index and report `true`; after
advancing, auto-pause when the newly reached step is a terminal marker while
playing.  At the last index: report `false`, no state change. -/
def scNext (s : SCState) : Bool × SCState :=
  if s.currentStepIndex < (s.steps.length : Int) - 1 then
    let s1 := { s with currentStepIndex := s.currentStepIndex + 1 }
    let s2 :=
      match scGetCurrentStep s1 with
      | some st =>
          if (st.type = "final_result" ∨ st.type = "final") ∧ s1.isPlaying = true then
            scPause s1
          else s1
      | none => s1
    (true, s2)
  else (false, s)

/-- `previous()`: step back while the index is above −1 and report `true`;
no-op reporting `false` at −1. -/
def scPrevious (s : SCState) : Bool × SCState :=
  if -1 < s.currentStepIndex then
    (true, { s with currentStepIndex := s.currentStepIndex - 1 })
  else (false, s)

/-- `play()`: no-op when already playing; rewind to −1 when at (or past) the
last index; arm the timer. -/
def scPlay (s : SCState) : SCState :=
  if s.isPlaying then s
  else
    let s1 := if (s.steps.length : Int) - 1 ≤ s.currentStepIndex then
        { s with currentStepIndex := -1 }
      else s
    { s1 with isPlaying := true }

/-- One `setInterval` callback: when playing, `next()`; when `next` reports
`false` (end reached), `pause()`. -/
def scTick (s : SCState) : SCState :=
  if s.isPlaying then
    let r := scNext s
    if r.1 then r.2 else scPause r.2
  else s

/-- `replay()`: pause, reset the index to −1, then play. -/
def scReplay (s : SCState) : SCState :=
  scPlay { scPause s with currentStepIndex := -1 }

/-- `reset()`: pause and reset the index to −1 (no auto-play). -/
def scReset (s : SCState) : SCState :=
  { scPause s with currentStepIndex := -1 }

/-- `setPlaybackSpeed(ms)`: clamp to ≥ 100 ms; when playing, restart the
timer (pause then play) without losing position. -/
def scSetSpeed (s : SCState) (ms : Nat) : SCState :=
  let s1 := { s with playbackSpeed := max 100 ms }
  if s1.isPlaying then scPlay (scPause s1) else s1

/-- **C9.** On a controller initialised with a 3-step trace, three `next()`
calls reach index 2 and a fourth returns `false` without changing the state;
four `previous()` calls from index 2 clamp at −1 without erroring (the fourth
is a `false`-returning no-op); and `replay()` always resets the index to −1
before starting playback.  All transitions are total functions: no operation
raises. -/
theorem stepController_playback_fsm (s0 s1 s2 : Step)
    (h0 : s0.type ≠ "") (h1 : s1.type ≠ "") (h2 : s2.type ≠ "") :
    (let c0 := scAddSteps (scInitialize "algo" 3 [] SCState.initial) [s0, s1, s2]
     let c1 := (scNext c0).2
     let c2 := (scNext c1).2
     let c3 := (scNext c2).2
     c3.currentStepIndex = 2 ∧ (scNext c3).1 = false ∧ (scNext c3).2 = c3 ∧
       (let p1 := (scPrevious c3).2
        let p2 := (scPrevious p1).2
        let p3 := (scPrevious p2).2
        let p4 := (scPrevious p3).2
        p3.currentStepIndex = -1 ∧ (scPrevious p3).1 = false ∧ p4 = p3)) ∧
    (∀ s : SCState, (scReplay s).currentStepIndex = -1 ∧ (scReplay s).isPlaying = true) := by
  have hc0 : scAddSteps (scInitialize "algo" 3 [] SCState.initial) [s0, s1, s2] =
      ⟨[s0, s1, s2], -1, false, 500, "algo", 3, []⟩ := by
    simp [scAddSteps, scAddStep, scInitialize, scClear, scPause, SCState.initial,
      h0, h1, h2]
  have hn1 : scNext ⟨[s0, s1, s2], -1, false, 500, "algo", 3, []⟩ =
      (true, ⟨[s0, s1, s2], 0, false, 500, "algo", 3, []⟩) := by
    simp [scNext, scGetCurrentStep, scPause]
  have hn2 : scNext ⟨[s0, s1, s2], 0, false, 500, "algo", 3, []⟩ =
      (true, ⟨[s0, s1, s2], 1, false, 500, "algo", 3, []⟩) := by
    simp [scNext, scGetCurrentStep, scPause]
  have hn3 : scNext ⟨[s0, s1, s2], 1, false, 500, "algo", 3, []⟩ =
      (true, ⟨[s0, s1, s2], 2, false, 500, "algo", 3, []⟩) := by
    simp [scNext, scGetCurrentStep, scPause]
  have hn4 : scNext ⟨[s0, s1, s2], 2, false, 500, "algo", 3, []⟩ =
      (false, ⟨[s0, s1, s2], 2, false, 500, "algo", 3, []⟩) := by
    simp [scNext]
  have hp1 : scPrevious ⟨[s0, s1, s2], 2, false, 500, "algo", 3, []⟩ =
      (true, ⟨[s0, s1, s2], 1, false, 500, "algo", 3, []⟩) := by
    simp [scPrevious]
  have hp2 : scPrevious ⟨[s0, s1, s2], 1, false, 500, "algo", 3, []⟩ =
      (true, ⟨[s0, s1, s2], 0, false, 500, "algo", 3, []⟩) := by
    simp [scPrevious]
  have hp3 : scPrevious ⟨[s0, s1, s2], 0, false, 500, "algo", 3, []⟩ =
      (true, ⟨[s0, s1, s2], -1, false, 500, "algo", 3, []⟩) := by
    simp [scPrevious]
  have hp4 : scPrevious ⟨[s0, s1, s2], -1, false, 500, "algo", 3, []⟩ =
      (false, ⟨[s0, s1, s2], -1, false, 500, "algo", 3, []⟩) := by
    simp [scPrevious]
  constructor
  · simp only [hc0, hn1, hn2, hn3, hn4, hp1, hp2, hp3, hp4]
    simp
  · intro s
    unfold scReplay scPlay scPause
    split_ifs <;> simp_all

/-- Witness for C9 on three concrete typed steps. -/
theorem stepController_playback_fsm_witness :
    (⟨"a", none, none, none, none⟩ : Step).type ≠ "" ∧
    ((let c0 := scAddSteps (scInitialize "algo" 3 [] SCState.initial)
        [⟨"a", none, none, none, none⟩, ⟨"b", none, none, none, none⟩,
         ⟨"c", none, none, none, none⟩]
      let c1 := (scNext c0).2
      let c2 := (scNext c1).2
      let c3 := (scNext c2).2
      c3.currentStepIndex = 2 ∧ (scNext c3).1 = false ∧ (scNext c3).2 = c3 ∧
        (let p1 := (scPrevious c3).2
         let p2 := (scPrevious p1).2
         let p3 := (scPrevious p2).2
         let p4 := (scPrevious p3).2
         p3.currentStepIndex = -1 ∧ (scPrevious p3).1 = false ∧ p4 = p3)) ∧
      (∀ s : SCState, (scReplay s).currentStepIndex = -1 ∧ (scReplay s).isPlaying = true)) :=
  ⟨by simp,
    stepController_playback_fsm ⟨"a", none, none, none, none⟩
      ⟨"b", none, none, none, none⟩ ⟨"c", none, none, none, none⟩
      (by simp) (by simp) (by simp)⟩

/-- The public operations of `StepController`, as a syntax of events applied
to a state (a timer firing is the `tick` event). -/
inductive SCOp where
  | init (name : String) (totalCities : Nat) (userRoute : List Nat)
  | addStep (step : Step)
  | addSteps (stepsArray : List Step)
  | next
  | previous
  | play
  | tick
  | pause
  | replay
  | reset
  | clear
  | setSpeed (ms : Nat)

/-- Interpretation of one `StepController` operation. -/
def scApply (s : SCState) : SCOp → SCState
  | .init name tc ur => scInitialize name tc ur s
  | .addStep st => scAddStep s st
  | .addSteps sts => scAddSteps s sts
  | .next => (scNext s).2
  | .previous => (scPrevious s).2
  | .play => scPlay s
  | .tick => scTick s
  | .pause => scPause s
  | .replay => scReplay s
  | .reset => scReset s
  | .clear => scClear s
  | .setSpeed ms => scSetSpeed s ms

/-- The index range invariant: `-1 ≤ currentStepIndex ≤ steps.length - 1`. -/
def SCInv (s : SCState) : Prop :=
  -1 ≤ s.currentStepIndex ∧ s.currentStepIndex ≤ (s.steps.length : Int) - 1

lemma scPause_fields (s : SCState) : (scPause s).currentStepIndex = s.currentStepIndex ∧
    (scPause s).steps = s.steps := by
  unfold scPause
  split_ifs <;> exact ⟨rfl, rfl⟩

lemma SCInv_pause {s : SCState} (h : SCInv s) : SCInv (scPause s) := by
  obtain ⟨h1, h2⟩ := scPause_fields s
  exact ⟨h1 ▸ h.1, by rw [h1, h2]; exact h.2⟩

lemma SCInv_addStep {s : SCState} (h : SCInv s) (st : Step) : SCInv (scAddStep s st) := by
  unfold scAddStep
  split_ifs
  · exact h
  · refine ⟨h.1, ?_⟩
    have := h.2
    simp only [List.length_append, List.length_singleton]
    push_cast
    push_cast at this
    omega

lemma SCInv_next {s : SCState} (h : SCInv s) : SCInv (scNext s).2 := by
  unfold scNext
  split_ifs with hlt
  · simp only
    set s1 : SCState := { s with currentStepIndex := s.currentStepIndex + 1 }
    have hs1 : SCInv s1 := by
      refine ⟨?_, ?_⟩
      · show -1 ≤ s.currentStepIndex + 1
        have := h.1
        omega
      · show s.currentStepIndex + 1 ≤ (s.steps.length : Int) - 1
        omega
    cases hcs : scGetCurrentStep s1 with
    | none => simpa [hcs] using hs1
    | some st =>
        simp only [hcs]
        split_ifs with hfin
        · obtain ⟨hp1, hp2⟩ := scPause_fields s1
          exact ⟨hp1 ▸ hs1.1, by rw [hp1, hp2]; exact hs1.2⟩
        · exact hs1
  · exact h

lemma SCInv_play {s : SCState} (h : SCInv s) : SCInv (scPlay s) := by
  unfold scPlay
  split_ifs with hp hend
  · exact h
  · refine ⟨by simp, ?_⟩
    simp only
    have hlen : (0 : Int) ≤ (s.steps.length : Int) := by positivity
    omega
  · exact ⟨h.1, h.2⟩

lemma SCInv_apply {s : SCState} (h : SCInv s) (op : SCOp) : SCInv (scApply s op) := by
  cases op with
  | init name tc ur =>
      show SCInv (scInitialize name tc ur s)
      unfold scInitialize scClear
      constructor <;> simp
  | addStep st => exact SCInv_addStep h st
  | addSteps sts =>
      show SCInv (scAddSteps s sts)
      unfold scAddSteps
      induction sts generalizing s with
      | nil => exact h
      | cons st rest ih => exact ih (SCInv_addStep h st)
  | next => exact SCInv_next h
  | previous =>
      show SCInv (scPrevious s).2
      unfold scPrevious
      split_ifs with hgt
      · refine ⟨?_, ?_⟩
        · show -1 ≤ s.currentStepIndex - 1
          omega
        · show s.currentStepIndex - 1 ≤ (s.steps.length : Int) - 1
          have := h.2
          omega
      · exact h
  | play => exact SCInv_play h
  | tick =>
      show SCInv (scTick s)
      unfold scTick
      split_ifs with hp
      · show SCInv (if (scNext s).1 = true then (scNext s).2 else scPause (scNext s).2)
        have hnext : SCInv (scNext s).2 := SCInv_next h
        split_ifs with hok
        · exact hnext
        · exact SCInv_pause hnext
      · exact h
  | pause => exact SCInv_pause h
  | replay =>
      show SCInv (scReplay s)
      unfold scReplay
      have hmid : SCInv { scPause s with currentStepIndex := -1 } := by
        refine ⟨by simp, ?_⟩
        simp only
        have hlen : (0 : Int) ≤ ((scPause s).steps.length : Int) := by positivity
        omega
      exact SCInv_play hmid
  | reset =>
      show SCInv (scReset s)
      unfold scReset
      refine ⟨by simp, ?_⟩
      simp only
      have hlen : (0 : Int) ≤ ((scPause s).steps.length : Int) := by positivity
      omega
  | clear =>
      show SCInv (scClear s)
      unfold scClear
      exact ⟨by simp, by simp⟩
  | setSpeed ms =>
      show SCInv (scSetSpeed s ms)
      unfold scSetSpeed
      simp only
      split_ifs with hp
      · have hbase : SCInv { s with playbackSpeed := max 100 ms } := ⟨h.1, h.2⟩
        exact SCInv_play (SCInv_pause hbase)
      · exact ⟨h.1, h.2⟩

/-- **C10.** After any sequence of controller operations starting from the
constructor state, the current index lies in `-1 .. steps.length - 1`, and
`getCurrentStep` returns `null` exactly at −1 and an element of the loaded
trace otherwise. -/
theorem stepController_index_always_in_range (ops : List SCOp) :
    (-1 ≤ (ops.foldl scApply SCState.initial).currentStepIndex ∧
      (ops.foldl scApply SCState.initial).currentStepIndex ≤
        ((ops.foldl scApply SCState.initial).steps.length : Int) - 1) ∧
    ((ops.foldl scApply SCState.initial).currentStepIndex = -1 →
      scGetCurrentStep (ops.foldl scApply SCState.initial) = none) ∧
    ((ops.foldl scApply SCState.initial).currentStepIndex ≠ -1 →
      ∃ st ∈ (ops.foldl scApply SCState.initial).steps,
        scGetCurrentStep (ops.foldl scApply SCState.initial) = some st) := by
  have hfold : ∀ (l : List SCOp) (s : SCState), SCInv s → SCInv (l.foldl scApply s) := by
    intro l
    induction l with
    | nil => intro s h; exact h
    | cons op rest ih => intro s h; exact ih _ (SCInv_apply h op)
  have h0 : SCInv SCState.initial := by
    constructor <;> simp [SCState.initial]
  have hs := hfold ops SCState.initial h0
  obtain ⟨hlo, hhi⟩ := hs
  refine ⟨⟨hlo, hhi⟩, ?_, ?_⟩
  · intro hidx
    unfold scGetCurrentStep
    rw [if_pos (Or.inl (by omega))]
  · intro hidx
    have h1 : 0 ≤ (ops.foldl scApply SCState.initial).currentStepIndex := by omega
    have h2 : (ops.foldl scApply SCState.initial).currentStepIndex <
        ((ops.foldl scApply SCState.initial).steps.length : Int) := by omega
    unfold scGetCurrentStep
    rw [if_neg (by omega)]
    have hlt : (ops.foldl scApply SCState.initial).currentStepIndex.toNat <
        (ops.foldl scApply SCState.initial).steps.length := by omega
    exact ⟨(ops.foldl scApply SCState.initial).steps[(ops.foldl scApply
        SCState.initial).currentStepIndex.toNat],
      List.getElem_mem hlt, List.getElem?_eq_getElem hlt⟩
